import Mathlib

/-
Verification of the MIOM constraint-assembly and subnetwork-extraction layer.
The repository ships its test-suite and an example script; the optimisation
layer itself (module miom/miom.py) is not part of the sources, so the data
model and the operations below are modelled from the specification document
(sections 2-8).  Real numbers of the implementation are rendered as rationals,
and the external LP/MIP backend is rendered by its contract: a solver returns
a feasible assignment that maximises the objective.
-/

namespace Miom

/-- Modelled from the spec: a reaction of the metabolic network, with its
identifier and lower/upper flux bounds (miom/miom.py is missing from the
sources; the shape follows Section 3 of the specification). -/
structure Reaction where
  id : String
  lb : ℚ
  ub : ℚ
deriving DecidableEq

/-- Modelled from the spec: placeholder reaction returned by out-of-range
positional lookups. -/
def defaultReaction : Reaction := ⟨"", 0, 0⟩

/-- Modelled from the spec: in-memory metabolic network: ordered reactions,
ordered metabolites and the stoichiometric matrix, one row per metabolite and
one column per reaction. -/
structure Network where
  reactions : List Reaction
  metabolites : List String
  stoich : List (List ℚ)
deriving DecidableEq

/-- Number of reactions of a network (`network.num_reactions`). -/
def num_reactions (N : Network) : Nat := N.reactions.length

/-- Lower bound of the reaction at position `i`. -/
abbrev lbAt (N : Network) (i : Nat) : ℚ := (N.reactions.getD i defaultReaction).lb

/-- Upper bound of the reaction at position `i`. -/
abbrev ubAt (N : Network) (i : Nat) : ℚ := (N.reactions.getD i defaultReaction).ub

/-- Dot product of two coefficient lists (truncating at the shorter one). -/
def dot (a b : List ℚ) : ℚ := (List.zipWith (fun p q => p * q) a b).sum

/-- Modelled from the spec: the mass-balance (steady state) constraints,
one equality per metabolite: stoichiometric row, dotted with the flux
vector, equals zero. -/
abbrev steadyState (N : Network) (v : List ℚ) : Prop :=
  ∀ row ∈ N.stoich, dot row v = 0

/-- Modelled from the spec: the flux vector has one entry per reaction and
every entry lies between the reaction bounds. -/
abbrev FluxFeasible (N : Network) (v : List ℚ) : Prop :=
  v.length = N.reactions.length ∧
  ∀ i, i < N.reactions.length → lbAt N i ≤ v.getD i 0 ∧ v.getD i 0 ≤ ubAt N i

/-- Modelled from the spec: a flux assignment of the FBA problem -- within
bounds and mass balanced. -/
abbrev FBAFeasible (N : Network) (v : List ℚ) : Prop :=
  FluxFeasible N v ∧ steadyState N v

/-- Objective value of a single-reaction objective: the flux of reaction `i`. -/
def objAt (i : Nat) (v : List ℚ) : ℚ := v.getD i 0

/-- Modelled from the spec: the solver contract for
`set_rxn_objective(rxn, direction='max')`: the returned assignment is feasible
and maximises the flux of the objective reaction. -/
def MaxOptimal (N : Network) (i : Nat) (v : List ℚ) : Prop :=
  FBAFeasible N v ∧ ∀ u, FBAFeasible N u → objAt i u ≤ objAt i v

/-- Modelled from the spec: the solver contract for
`set_rxn_objective(rxn, direction='min')`: the returned assignment is feasible
and minimises the flux of the objective reaction. -/
def MinOptimal (N : Network) (i : Nat) (v : List ℚ) : Prop :=
  FBAFeasible N v ∧ ∀ u, FBAFeasible N u → objAt i v ≤ objAt i u

/-- Modelled from the spec: the weighted objective of the subset-selection
problem: the sum over reactions of the absolute weight times the indicator
value. -/
def mipObjective (w x : List ℚ) : ℚ :=
  (List.zipWith (fun p q => |p| * q) w x).sum

/-- Modelled from the spec: the indicator side of the subset-selection
problem.  One binary indicator per reaction; a reaction with a nonnegative
weight may be marked selected (indicator one) only if its flux magnitude
reaches the activity threshold `eps`; a reaction with a negative weight may be
marked (indicator one) only if it carries no flux.  This is the encoding the
test-suite comments describe for `subset_selection`. -/
abbrev MipIndicators (N : Network) (w : List ℚ) (eps : ℚ) (v x : List ℚ) : Prop :=
  x.length = N.reactions.length ∧
  (∀ i, i < x.length → x.getD i 0 = 0 ∨ x.getD i 0 = 1) ∧
  (∀ i, i < x.length → 0 ≤ w.getD i 0 → x.getD i 0 = 1 → eps ≤ |v.getD i 0|) ∧
  (∀ i, i < x.length → w.getD i 0 < 0 → x.getD i 0 = 1 → v.getD i 0 = 0)

/-- Modelled from the spec: feasibility of the subset-selection problem built
by `subset_selection`: a steady-state flux assignment within bounds together
with a consistent indicator assignment. -/
abbrev MipFeasible (N : Network) (w : List ℚ) (eps : ℚ) (v x : List ℚ) : Prop :=
  FBAFeasible N v ∧ MipIndicators N w eps v x

/-- Modelled from the spec: the solver contract for the subset-selection
problem: a feasible assignment whose weighted objective is maximal among all
feasible assignments. -/
def MipOptimal (N : Network) (w : List ℚ) (eps : ℚ) (v x : List ℚ) : Prop :=
  MipFeasible N w eps v x ∧
  ∀ u y, MipFeasible N w eps u y → mipObjective w y ≤ mipObjective w x

/-- Modelled from the spec: feasibility after `exclude()`, which adds a cut
forbidding the indicator pattern of the previous solution. -/
abbrev ExcludeFeasible (N : Network) (w : List ℚ) (eps : ℚ) (pat v x : List ℚ) : Prop :=
  MipFeasible N w eps v x ∧ x ≠ pat

/-- Modelled from the spec: the solver contract for the re-solve after
`exclude()`: optimal among the assignments avoiding the excluded pattern. -/
def ExcludeOptimal (N : Network) (w : List ℚ) (eps : ℚ) (pat v x : List ℚ) : Prop :=
  ExcludeFeasible N w eps pat v x ∧
  ∀ u y, ExcludeFeasible N w eps pat u y → mipObjective w y ≤ mipObjective w x

/-- Number of reactions reported active: indicator entries above one half
(the test-suite counts `X > 0.99` or `X > 0.5`; indicators are binary, so the
two thresholds agree). -/
def activeCount (x : List ℚ) : Nat :=
  x.countP (fun b => decide ((1 : ℚ) / 2 < b))

/-- Replace the bounds of the reaction at position `i`. -/
def updateBoundsList : List Reaction → Nat → ℚ → ℚ → List Reaction
  | [], _, _, _ => []
  | r :: rs, 0, lo, hi => { r with lb := lo, ub := hi } :: rs
  | r :: rs, Nat.succ k, lo, hi => r :: updateBoundsList rs k lo hi

/-- Modelled from the spec: mutate the bounds of one reaction of the network
(the mechanism behind `set_flux_bounds` and behind blocking a reaction by
setting both of its bounds to zero). -/
def setBoundsAt (N : Network) (i : Nat) (lo hi : ℚ) : Network :=
  { N with reactions := updateBoundsList N.reactions i lo hi }

/-- Position of the reaction with the given identifier. -/
def findIdxAux (rid : String) : List Reaction → Option Nat
  | [] => none
  | r :: rs => if r.id = rid then some 0 else Option.map (fun k => k + 1) (findIdxAux rid rs)

/-- Modelled from the spec: `network.find_reaction`, returning the position of
the reaction with the given identifier. -/
def findReactionIdx (N : Network) (rid : String) : Option Nat :=
  findIdxAux rid N.reactions

/-- Keep the elements whose position satisfies the predicate; `k` is the
position of the first element. -/
def keepIdx {α : Type} (p : Nat → Bool) : Nat → List α → List α
  | _, [] => []
  | k, a :: as => if p k then a :: keepIdx p (k + 1) as else keepIdx p (k + 1) as

/-- Modelled from the spec: restrict a network to the reactions whose position
satisfies the predicate, dropping the matching stoichiometry columns. -/
def filterNetwork (N : Network) (p : Nat → Bool) : Network :=
  { reactions := keepIdx p 0 N.reactions
    metabolites := N.metabolites
    stoich := N.stoich.map (keepIdx p 0) }

/-- Modelled from the spec: the two subnetwork-extraction modes: select by
indicator value or by absolute flux magnitude. -/
inductive ExtractionMode where
  | INDICATOR_VALUE
  | ABSOLUTE_FLUX_VALUE
deriving DecidableEq

/-- Modelled from the spec: the comparators accepted by
`select_subnetwork`. -/
inductive Comparator where
  | LESS
  | LESS_OR_EQUAL
  | GREATER
  | GREATER_OR_EQUAL
  | EQUAL
deriving DecidableEq

/-- Evaluate a comparator on a metric and a threshold. -/
def applyComparator (c : Comparator) (a b : ℚ) : Bool :=
  match c with
  | Comparator.LESS => decide (a < b)
  | Comparator.LESS_OR_EQUAL => decide (a ≤ b)
  | Comparator.GREATER => decide (b < a)
  | Comparator.GREATER_OR_EQUAL => decide (b ≤ a)
  | Comparator.EQUAL => decide (a = b)

/-- Modelled from the spec: direction of a single-reaction objective. -/
inductive RxnDirection where
  | max
  | min
deriving DecidableEq

/-- Modelled from the spec: the status record populated by a solve call:
objective value, flux vector and indicator vector. -/
structure SolveStatus where
  objective_value : ℚ
  fluxes : List ℚ
  indicators : List ℚ
deriving DecidableEq

/-- Error message for value access before a solve. -/
def msgNotSolved : String := "the model has not been solved yet"

/-- Error message for indicator-based extraction without indicator
variables. -/
def msgNoIndicators : String := "the model does not contain indicator variables"

/-- Modelled from the spec: the state of an `OptimizationModel`: the network,
whether the steady-state constraints were added, the single-reaction
objective, the optional subset-selection weights (present exactly when the
indicator variables exist), the activity threshold, the reactions pinned by
`keep`, the indicator patterns forbidden by `exclude`, and the cached solve
status. -/
structure OptimizationModel where
  network : Network
  steadyStateOn : Bool
  objective : Option (String × RxnDirection)
  weights : Option (List ℚ)
  eps : ℚ
  keepSet : List Nat
  excludedPatterns : List (List ℚ)
  status : Option SolveStatus

/-- Modelled from the spec: `miom.load(network, solver)`: a fresh model over
the network, nothing solved, no constraints added yet; the default activity
threshold is a small positive rational. -/
def load (N : Network) : OptimizationModel :=
  ⟨N, false, none, none, 1 / 100, [], [], none⟩

/-- Modelled from the spec: `steady_state()` adds the mass-balance equality
constraints. -/
def steady_state (m : OptimizationModel) : OptimizationModel :=
  { m with steadyStateOn := true }

/-- Modelled from the spec: `set_rxn_objective(rxn, direction)` sets a
single-reaction linear objective. -/
def set_rxn_objective (m : OptimizationModel) (rid : String) (d : RxnDirection) : OptimizationModel :=
  { m with objective := some (rid, d) }

/-- Modelled from the spec: `subset_selection` with a per-reaction weight
vector: introduces the indicator variables and records the weights. -/
def subset_selection (m : OptimizationModel) (w : List ℚ) : OptimizationModel :=
  { m with weights := some w }

/-- Modelled from the spec: `subset_selection` with a scalar weight, which the
test-suite applies uniformly to every reaction. -/
def subset_selection_scalar (m : OptimizationModel) (c : ℚ) : OptimizationModel :=
  subset_selection m (List.replicate (num_reactions m.network) c)

/-- Modelled from the spec: `solve()` invokes the backend solver and populates
the status; the solver is external, so the status it produces is taken as an
argument. -/
def solve (m : OptimizationModel) (s : SolveStatus) : OptimizationModel :=
  { m with status := some s }

/-- Modelled from the spec: `get_fluxes(id)` returns the solved value for one
reaction and fails with a not-solved error when no solve status is cached. -/
def get_fluxes (m : OptimizationModel) (rid : String) : Except String ℚ :=
  match m.status with
  | none => Except.error msgNotSolved
  | some s =>
    match findReactionIdx m.network rid with
    | none => Except.error ("reaction not found: " ++ rid)
    | some i => Except.ok (s.fluxes.getD i 0)

/-- Modelled from the spec: `get_values()` returns the full flux vector and
indicator vector, failing when the model was not solved. -/
def get_values (m : OptimizationModel) : Except String (List ℚ × List ℚ) :=
  match m.status with
  | none => Except.error msgNotSolved
  | some s => Except.ok (s.fluxes, s.indicators)

/-- Modelled from the spec: `set_flux_bounds(id, min_flux, max_flux)` mutates
the bounds of one reaction and invalidates any cached solve status; an
unknown reaction id fails with a not-found error (Section 7). -/
def set_flux_bounds (m : OptimizationModel) (rid : String) (lo hi : ℚ) :
    Except String OptimizationModel :=
  match findReactionIdx m.network rid with
  | some i => Except.ok { m with network := setBoundsAt m.network i lo hi, status := none }
  | none => Except.error ("reaction not found: " ++ rid)

/-- Modelled from the spec: `set_fluxes_for(id)` constrains the flux of one
reaction to its value in the cached solution, by fixing both of its bounds to
that value; without a cached solution the model is unchanged. -/
def set_fluxes_for (m : OptimizationModel) (rid : String) : OptimizationModel :=
  match m.status, findReactionIdx m.network rid with
  | some s, some i =>
      { m with network := setBoundsAt m.network i (s.fluxes.getD i 0) (s.fluxes.getD i 0) }
  | _, _ => m

/-- Modelled from the spec: `keep(id)` pins the indicator variable of one
reaction to active. -/
def keep (m : OptimizationModel) (rid : String) : OptimizationModel :=
  match findReactionIdx m.network rid with
  | some i => { m with keepSet := i :: m.keepSet }
  | none => m

/-- Modelled from the spec: `exclude()` forbids the indicator pattern of the
cached solution and drops the now-stale status. -/
def exclude (m : OptimizationModel) : OptimizationModel :=
  match m.status with
  | some s => { m with excludedPatterns := s.indicators :: m.excludedPatterns, status := none }
  | none => m

/-- Modelled from the spec: `select_subnetwork(mode, comparator, value)`
filters the reactions of a solved model by the chosen metric; it fails when
the model is not solved, and, for the indicator mode, when the model has no
indicator variables. -/
def select_subnetwork (m : OptimizationModel) (mode : ExtractionMode) (c : Comparator) (value : ℚ) : Except String Network :=
  match m.status with
  | none => Except.error msgNotSolved
  | some s =>
    match mode with
    | ExtractionMode.INDICATOR_VALUE =>
      match m.weights with
      | none => Except.error msgNoIndicators
      | some _ =>
        Except.ok (filterNetwork m.network (fun i => applyComparator c (s.indicators.getD i 0) value))
    | ExtractionMode.ABSOLUTE_FLUX_VALUE =>
      Except.ok (filterNetwork m.network (fun i => applyComparator c (|s.fluxes.getD i 0|) value))

/-- Modelled from the spec: the indicator-side feasibility demanded of a
solution of a model state: when indicator variables exist, the indicator
formulation holds, the pinned reactions are active and the excluded patterns
are avoided; without indicator variables the indicator vector is empty. -/
def IndicatorsOkFor (N : Network) (eps : ℚ) (ks : List Nat) (ex : List (List ℚ))
    (wo : Option (List ℚ)) (v x : List ℚ) : Prop :=
  match wo with
  | none => x = []
  | some w =>
      MipIndicators N w eps v x ∧
      (∀ r ∈ ks, x.getD r 0 = 1) ∧
      (∀ pat ∈ ex, x ≠ pat)

instance instDecIndicatorsOkFor (N : Network) (eps : ℚ) (ks : List Nat)
    (ex : List (List ℚ)) (wo : Option (List ℚ)) (v x : List ℚ) :
    Decidable (IndicatorsOkFor N eps ks ex wo v x) :=
  match wo with
  | none => inferInstanceAs (Decidable (x = []))
  | some _ => inferInstanceAs (Decidable (_ ∧ _ ∧ _))

/-- Modelled from the spec: full feasibility of an assignment for the problem
a model state describes: bounds, mass balance when `steady_state()` was
applied, and the indicator side. -/
def ModelFeasible (m : OptimizationModel) (v x : List ℚ) : Prop :=
  FluxFeasible m.network v ∧
  (m.steadyStateOn = true → steadyState m.network v) ∧
  IndicatorsOkFor m.network m.eps m.keepSet m.excludedPatterns m.weights v x

instance instDecModelFeasible (m : OptimizationModel) (v x : List ℚ) :
    Decidable (ModelFeasible m v x) :=
  inferInstanceAs (Decidable (_ ∧ _ ∧ _))

/-! Explicit-store rendering of variable objects, for the copy operation.
The implementation holds flux and indicator variables as solver objects; the
tested invariant is about object identity, so variables are rendered as cells
of a shared store addressed by references. -/

/-- Modelled from the spec: the pool of solver variable objects; each cell
holds the current value of one variable. -/
structure VarStore where
  cells : List ℚ
deriving DecidableEq

/-- Modelled from the spec: the variable bookkeeping of an
`OptimizationModel`: references of its flux variables and of its indicator
variables into the shared store. -/
structure VarRefs where
  flux_refs : List Nat
  indicator_refs : List Nat
deriving DecidableEq

/-- All variable references a model owns. -/
def allRefs (m : VarRefs) : List Nat := m.flux_refs ++ m.indicator_refs

/-- A model only references existing cells. -/
abbrev ValidRefs (st : VarStore) (m : VarRefs) : Prop :=
  ∀ r ∈ allRefs m, r < st.cells.length

/-- Write one variable cell (the effect of mutating or re-solving a model on
one of its variables). -/
def writeCell (st : VarStore) (r : Nat) (q : ℚ) : VarStore :=
  ⟨st.cells.set r q⟩

/-- Read the values a model sees through a list of references. -/
def readCells (st : VarStore) (rs : List Nat) : List ℚ :=
  rs.map (fun r => st.cells.getD r 0)

/-- Modelled from the spec: `copy()` deep-copies the variables: fresh cells
are allocated at the end of the store, initialised with the current values,
and the copy references only the fresh cells. -/
def copyModel (st : VarStore) (m : VarRefs) : VarStore × VarRefs :=
  let n := st.cells.length
  let k := m.flux_refs.length
  ⟨⟨st.cells ++ m.flux_refs.map (fun r => st.cells.getD r 0) ++
      m.indicator_refs.map (fun r => st.cells.getD r 0)⟩,
   ⟨(List.range k).map (fun j => j + n),
    (List.range m.indicator_refs.length).map (fun j => j + n + k)⟩⟩

/-- The deep-copy contract of `copy()`: the copy has as many flux and
indicator variables as the original, none of its variable objects is one of
the original's, and writing through any of the copy's references leaves every
value the original sees unchanged. -/
def CopyOk (st : VarStore) (m : VarRefs) : Prop :=
  (copyModel st m).2.flux_refs.length = m.flux_refs.length ∧
  (copyModel st m).2.indicator_refs.length = m.indicator_refs.length ∧
  (∀ r ∈ allRefs m, ∀ s ∈ allRefs (copyModel st m).2, r ≠ s) ∧
  ∀ s ∈ allRefs (copyModel st m).2, ∀ q : ℚ,
    readCells (writeCell (copyModel st m).1 s q) (allRefs m) =
      readCells (copyModel st m).1 (allRefs m)

/-! Concrete networks used as test vectors for the claims. -/

/-- Identifier of the first example reaction. -/
def ridIn : String := "R_in"

/-- Identifier of the second example reaction. -/
def ridMid : String := "R_mid"

/-- Identifier of the third example reaction. -/
def ridOut : String := "R_out"

/-- A three-reaction linear chain: an uptake, an internal conversion of
metabolite `A` into `B`, and a secretion; every bound is `[0, 10]`. -/
def exampleChain : Network :=
  ⟨[⟨ridIn, 0, 10⟩, ⟨ridMid, 0, 10⟩, ⟨ridOut, 0, 10⟩],
   ["A", "B"],
   [[1, -1, 0], [0, 1, -1]]⟩

/-- A network whose uptake reaction has both bounds fixed at `3`, so the
steady-state flux of every reaction is fully determined. -/
def exampleFixed : Network :=
  ⟨[⟨ridIn, 3, 3⟩, ⟨ridOut, 0, 10⟩],
   ["A"],
   [[1, -1]]⟩

/-- A branched network: one capacity-limited uptake of `A` and two competing
secretions; with activity threshold `1` at most one secretion can be active,
so the subset-selection problem has two optimal indicator patterns. -/
def exampleBranch : Network :=
  ⟨[⟨ridIn, 0, 1⟩, ⟨ridMid, 0, 10⟩, ⟨ridOut, 0, 10⟩],
   ["A"],
   [[1, -1, -1]]⟩

/-- The chain network with the middle reaction blocked: both of its bounds
set to zero. -/
def exampleChainBlocked : Network := setBoundsAt exampleChain 1 0 0

/-- Uniform unit weights for the three-reaction networks. -/
def wOnes : List ℚ := [1, 1, 1]

/-- Uniform weight `-1` for the three-reaction networks, the vector
`subset_selection(-1)` expands to. -/
def wNegOnes : List ℚ := [-1, -1, -1]

/-- A solver status for the chain network under `subset_selection(-1)`: no
reaction carries flux and every indicator is one. -/
def statusAllOff : SolveStatus := ⟨3, [0, 0, 0], [1, 1, 1]⟩

/-- A solver status for a plain FBA solve of the chain network with flux `2`
through every reaction. -/
def statusFlux2 : SolveStatus := ⟨2, [2, 2, 2], []⟩

/-- The chain model after steady state, `subset_selection(-1)` and a solve
that turned every reaction off. -/
def chainModelOff : OptimizationModel :=
  solve (subset_selection (steady_state (load exampleChain)) wNegOnes) statusAllOff

/-- The chain model after steady state and a plain FBA solve with flux `2`
everywhere. -/
def chainModelFlux2 : OptimizationModel :=
  solve (steady_state (load exampleChain)) statusFlux2

/-- The chain model with unit subset-selection weights and the middle
reaction pinned by `keep`. -/
def chainModelKeep : OptimizationModel :=
  keep (subset_selection (steady_state (load exampleChain)) wOnes) ridMid

/-- The chain model with weight `-1` on every reaction and the middle
reaction pinned by `keep`: the pinned indicator then forces the pinned
reaction's flux to zero. -/
def chainModelNegKeep : OptimizationModel :=
  keep (subset_selection (steady_state (load exampleChain)) wNegOnes) ridMid

/-- The chain model after a solve and a successful `set_flux_bounds` on the
middle reaction: bounds updated, solve status cleared. -/
def chainModelReBounded : OptimizationModel :=
  ⟨setBoundsAt exampleChain 1 0 0, false, none, none, 1 / 100, [], [], none⟩

end Miom

namespace Miom

/-! General lemmas about the list primitives of the embedding. -/

theorem getD_set_self {α : Type} (l : List α) (i : Nat) (a d : α) (h : i < l.length) :
    (l.set i a).getD i d = a := by
  induction l generalizing i with
  | nil => simp at h
  | cons b t ih =>
    cases i with
    | zero => rfl
    | succ k =>
      simp only [List.length_cons, Nat.succ_lt_succ_iff] at h
      simpa using ih k h

theorem getD_set_ne {α : Type} (l : List α) (i j : Nat) (a d : α) (h : j ≠ i) :
    (l.set i a).getD j d = l.getD j d := by
  induction l generalizing i j with
  | nil => simp
  | cons b t ih =>
    cases i with
    | zero =>
      cases j with
      | zero => exact absurd rfl h
      | succ k => simp
    | succ i2 =>
      cases j with
      | zero => simp
      | succ k =>
        have hset : (b :: t).set (i2 + 1) a = b :: t.set i2 a := rfl
        rw [hset, List.getD_cons_succ, List.getD_cons_succ]
        exact ih i2 k (fun hk => h (by rw [hk]))

theorem activeCount_nil : activeCount [] = 0 := rfl

theorem activeCount_cons (b : ℚ) (t : List ℚ) :
    activeCount (b :: t) = activeCount t + (if (1 : ℚ) / 2 < b then 1 else 0) := by
  simp [activeCount, List.countP_cons]

theorem activeCount_le_length (x : List ℚ) : activeCount x ≤ x.length := by
  induction x with
  | nil => simp [activeCount_nil]
  | cons b t ih =>
    rw [activeCount_cons]
    simp only [List.length_cons]
    by_cases hb : (1 : ℚ) / 2 < b
    · rw [if_pos hb]; omega
    · rw [if_neg hb]; omega

theorem activeCount_le_pred (x : List ℚ) (i : Nat) (hi : i < x.length)
    (hz : ¬ (1 : ℚ) / 2 < x.getD i 0) : activeCount x ≤ x.length - 1 := by
  induction x generalizing i with
  | nil => simp at hi
  | cons b t ih =>
    cases i with
    | zero =>
      simp only [List.getD_cons_zero] at hz
      rw [activeCount_cons]
      simp only [hz, if_false]
      simpa using activeCount_le_length t
    | succ k =>
      simp only [List.length_cons, Nat.succ_lt_succ_iff] at hi
      simp only [List.getD_cons_succ] at hz
      have ht := ih k hi hz
      have hlen : 0 < t.length := Nat.lt_of_le_of_lt (Nat.zero_le k) hi
      rw [activeCount_cons]
      simp only [List.length_cons]
      by_cases hb : (1 : ℚ) / 2 < b
      · rw [if_pos hb]; omega
      · rw [if_neg hb]; omega

theorem mipObjective_nil_right (w : List ℚ) : mipObjective w [] = 0 := by
  simp [mipObjective]

theorem mipObjective_cons (a b : ℚ) (w x : List ℚ) :
    mipObjective (a :: w) (b :: x) = |a| * b + mipObjective w x := by
  simp [mipObjective]

theorem mipObjective_set (w x : List ℚ) (i : Nat) (b : ℚ)
    (hiw : i < w.length) (hix : i < x.length) :
    mipObjective w (x.set i b) =
      mipObjective w x - |w.getD i 0| * x.getD i 0 + |w.getD i 0| * b := by
  induction i generalizing w x with
  | zero =>
    cases w with
    | nil => simp at hiw
    | cons a wt =>
      cases x with
      | nil => simp at hix
      | cons c xt =>
        simp only [List.set_cons_zero, List.getD_cons_zero, mipObjective_cons]
        ring
  | succ k ih =>
    cases w with
    | nil => simp at hiw
    | cons a wt =>
      cases x with
      | nil => simp at hix
      | cons c xt =>
        simp only [List.length_cons, Nat.succ_lt_succ_iff] at hiw hix
        have hset : (c :: xt).set (k + 1) b = c :: xt.set k b := rfl
        rw [hset, List.getD_cons_succ, List.getD_cons_succ, mipObjective_cons,
          mipObjective_cons, ih wt xt hiw hix]
        ring

theorem keepIdx_length_congr {α : Type} (p q : Nat → Bool) (as : List α) (k : Nat)
    (h : ∀ j, j < as.length → p (k + j) = q (k + j)) :
    (keepIdx p k as).length = (keepIdx q k as).length := by
  induction as generalizing k with
  | nil => rfl
  | cons a t ih =>
    have h0 : p k = q k := by simpa using h 0 (by simp)
    have ht : ∀ j, j < t.length → p (k + 1 + j) = q (k + 1 + j) := by
      intro j hj
      have := h (j + 1) (by simp; omega)
      rwa [show k + (j + 1) = k + 1 + j by omega] at this
    by_cases hp : p k
    · rw [keepIdx, keepIdx, if_pos hp, if_pos (h0 ▸ hp)]
      simpa using ih (k + 1) ht
    · rw [keepIdx, keepIdx, if_neg hp, if_neg (h0 ▸ hp)]
      exact ih (k + 1) ht

theorem findIdxAux_lt (rid : String) (rs : List Reaction) (i : Nat)
    (h : findIdxAux rid rs = some i) : i < rs.length := by
  induction rs generalizing i with
  | nil => exact Option.noConfusion h
  | cons r t ih =>
    rw [findIdxAux] at h
    by_cases hr : r.id = rid
    · rw [if_pos hr] at h
      cases h
      simp
    · rw [if_neg hr] at h
      cases ht : findIdxAux rid t with
      | none => rw [ht] at h; simp at h
      | some k =>
        rw [ht] at h
        simp only [Option.map_some'] at h
        cases h
        have := ih k ht
        simp
        omega

theorem updateBoundsList_length (rs : List Reaction) (i : Nat) (lo hi : ℚ) :
    (updateBoundsList rs i lo hi).length = rs.length := by
  induction rs generalizing i with
  | nil => rfl
  | cons r t ih =>
    cases i with
    | zero => rfl
    | succ k =>
      have hstep : updateBoundsList (r :: t) (k + 1) lo hi =
          r :: updateBoundsList t k lo hi := rfl
      rw [hstep, List.length_cons, List.length_cons, ih k]

theorem updateBoundsList_getD_self (rs : List Reaction) (i : Nat) (lo hi : ℚ)
    (h : i < rs.length) :
    (updateBoundsList rs i lo hi).getD i defaultReaction =
      { rs.getD i defaultReaction with lb := lo, ub := hi } := by
  induction rs generalizing i with
  | nil => simp at h
  | cons r t ih =>
    cases i with
    | zero => rfl
    | succ k =>
      simp only [List.length_cons, Nat.succ_lt_succ_iff] at h
      have hstep : (updateBoundsList (r :: t) (k + 1) lo hi).getD (k + 1) defaultReaction =
          (updateBoundsList t k lo hi).getD k defaultReaction := rfl
      rw [hstep, List.getD_cons_succ, ih k h]

theorem updateBoundsList_getD_ne (rs : List Reaction) (i j : Nat) (lo hi : ℚ)
    (h : j ≠ i) :
    (updateBoundsList rs i lo hi).getD j defaultReaction =
      rs.getD j defaultReaction := by
  induction rs generalizing i j with
  | nil => cases i <;> rfl
  | cons r t ih =>
    cases i with
    | zero =>
      cases j with
      | zero => exact absurd rfl h
      | succ k => rfl
    | succ i2 =>
      cases j with
      | zero => rfl
      | succ k =>
        have hstep : (updateBoundsList (r :: t) (i2 + 1) lo hi).getD (k + 1) defaultReaction =
            (updateBoundsList t i2 lo hi).getD k defaultReaction := rfl
        rw [hstep, List.getD_cons_succ]
        exact ih i2 k (fun hk => h (by rw [hk]))

theorem setBoundsAt_num_reactions (N : Network) (i : Nat) (lo hi : ℚ) :
    (setBoundsAt N i lo hi).reactions.length = N.reactions.length := by
  simp [setBoundsAt, updateBoundsList_length]

theorem setBoundsAt_lbAt_self (N : Network) (i : Nat) (lo hi : ℚ)
    (h : i < N.reactions.length) : lbAt (setBoundsAt N i lo hi) i = lo := by
  show ((updateBoundsList N.reactions i lo hi).getD i defaultReaction).lb = lo
  rw [updateBoundsList_getD_self N.reactions i lo hi h]

theorem setBoundsAt_ubAt_self (N : Network) (i : Nat) (lo hi : ℚ)
    (h : i < N.reactions.length) : ubAt (setBoundsAt N i lo hi) i = hi := by
  show ((updateBoundsList N.reactions i lo hi).getD i defaultReaction).ub = hi
  rw [updateBoundsList_getD_self N.reactions i lo hi h]

theorem setBoundsAt_stoich (N : Network) (i : Nat) (lo hi : ℚ) :
    (setBoundsAt N i lo hi).stoich = N.stoich := rfl

/-- With binary indicators the weighted objective is at most the sum of the
absolute weights. -/
theorem mipObjective_le_of_binary (w x : List ℚ)
    (hb : ∀ i, i < x.length → x.getD i 0 = 0 ∨ x.getD i 0 = 1) :
    mipObjective w x ≤ ((w.take x.length).map (fun a => |a|)).sum := by
  induction w generalizing x with
  | nil => simp [mipObjective]
  | cons a wt ih =>
    cases x with
    | nil => simp [mipObjective]
    | cons b xt =>
      rw [mipObjective_cons]
      have hb0 : b = 0 ∨ b = 1 := by simpa using hb 0 (by simp)
      have hbt : ∀ i, i < xt.length → xt.getD i 0 = 0 ∨ xt.getD i 0 = 1 := by
        intro i hi
        have := hb (i + 1) (by simp only [List.length_cons]; omega)
        simpa using this
      have h1 : |a| * b ≤ |a| := by
        rcases hb0 with rfl | rfl
        · simp [abs_nonneg a]
        · simp
      have h2 := ih xt hbt
      have hw : ((a :: wt).take (b :: xt).length).map (fun z => |z|) =
          |a| :: ((wt.take xt.length).map (fun z => |z|)) := by simp
      rw [hw, List.sum_cons]
      linarith

/-! Concrete solutions of the example networks, certified against the
modelled solver contract. -/

theorem chain_feasible_ones : MipFeasible exampleChain wOnes 1 [1, 1, 1] [1, 1, 1] := by
  refine ⟨⟨⟨rfl, ?_⟩, ?_⟩, rfl, ?_, ?_, ?_⟩
  · intro i hi
    simp only [exampleChain, List.length_cons, List.length_nil] at hi
    interval_cases i <;> norm_num [exampleChain, lbAt, ubAt, defaultReaction]
  · intro row hrow
    simp only [exampleChain, List.mem_cons, List.not_mem_nil, or_false] at hrow
    rcases hrow with rfl | rfl <;> norm_num [dot]
  · intro i hi
    simp only [List.length_cons, List.length_nil] at hi
    interval_cases i <;> norm_num
  · intro i hi
    simp only [List.length_cons, List.length_nil] at hi
    interval_cases i <;> norm_num
  · intro i hi
    simp only [List.length_cons, List.length_nil] at hi
    interval_cases i <;> norm_num [wOnes]

theorem chain_opt_ones : MipOptimal exampleChain wOnes 1 [1, 1, 1] [1, 1, 1] := by
  refine ⟨chain_feasible_ones, ?_⟩
  intro u y hf
  obtain ⟨-, hylen, hbin, -, -⟩ := hf
  have h3 : y.length = 3 := by simpa [exampleChain] using hylen
  have := mipObjective_le_of_binary wOnes y hbin
  rw [h3] at this
  have hval : ((wOnes.take 3).map (fun a => |a|)).sum = 3 := by norm_num [wOnes]
  have hobj : mipObjective wOnes [1, 1, 1] = 3 := by norm_num [mipObjective, wOnes]
  rw [hobj]
  linarith [hval ▸ this]

theorem blocked_chain_solution_zero (v x : List ℚ)
    (hf : MipFeasible exampleChainBlocked wOnes 1 v x) : x = [0, 0, 0] := by
  obtain ⟨⟨⟨hvlen, hbounds⟩, hsteady⟩, hxlen, hbin, hpos, -⟩ := hf
  have hv3 : v.length = 3 := by
    simpa [exampleChainBlocked, setBoundsAt, exampleChain, updateBoundsList] using hvlen
  obtain ⟨p, q, r0, rfl⟩ := List.length_eq_three.mp hv3
  have hx3 : x.length = 3 := by
    simpa [exampleChainBlocked, setBoundsAt, exampleChain, updateBoundsList] using hxlen
  obtain ⟨a, b, c, rfl⟩ := List.length_eq_three.mp hx3
  have hq : q = 0 := by
    have h1 := hbounds 1 (by norm_num [exampleChainBlocked, setBoundsAt, exampleChain, updateBoundsList])
    norm_num [exampleChainBlocked, setBoundsAt, exampleChain, updateBoundsList,
      lbAt, ubAt, defaultReaction] at h1
    linarith [h1.1, h1.2]
  have hrow1 := hsteady [1, -1, 0] (by
    simp [exampleChainBlocked, setBoundsAt, exampleChain])
  have hrow2 := hsteady [0, 1, -1] (by
    simp [exampleChainBlocked, setBoundsAt, exampleChain])
  norm_num [dot] at hrow1 hrow2
  have hp : p = 0 := by rw [hq] at hrow1; linarith
  have hr0 : r0 = 0 := by rw [hq] at hrow2; linarith
  have hxa : a = 0 := by
    rcases (by simpa using hbin 0 (by simp) : a = 0 ∨ a = 1) with h | h
    · exact h
    · have := hpos 0 (by simp) (by norm_num [wOnes]) (by simpa using h)
      rw [hp] at this
      norm_num at this
  have hxb : b = 0 := by
    rcases (by simpa using hbin 1 (by simp) : b = 0 ∨ b = 1) with h | h
    · exact h
    · have := hpos 1 (by simp) (by norm_num [wOnes]) (by simpa using h)
      rw [hq] at this
      norm_num at this
  have hxc : c = 0 := by
    rcases (by simpa using hbin 2 (by simp) : c = 0 ∨ c = 1) with h | h
    · exact h
    · have := hpos 2 (by simp) (by norm_num [wOnes]) (by simpa using h)
      rw [hr0] at this
      norm_num at this
  rw [hxa, hxb, hxc]

theorem blocked_chain_feasible_zero :
    MipFeasible exampleChainBlocked wOnes 1 [0, 0, 0] [0, 0, 0] := by
  refine ⟨⟨⟨rfl, ?_⟩, ?_⟩, rfl, ?_, ?_, ?_⟩
  · intro i hi
    simp only [exampleChainBlocked, setBoundsAt, exampleChain, updateBoundsList,
      List.length_cons, List.length_nil] at hi
    interval_cases i <;>
      norm_num [exampleChainBlocked, setBoundsAt, exampleChain, updateBoundsList,
        lbAt, ubAt, defaultReaction]
  · intro row hrow
    simp only [exampleChainBlocked, setBoundsAt, exampleChain, updateBoundsList,
      List.mem_cons, List.not_mem_nil, or_false] at hrow
    rcases hrow with rfl | rfl <;> norm_num [dot]
  · intro i hi
    simp only [List.length_cons, List.length_nil] at hi
    interval_cases i <;> norm_num
  · intro i hi
    simp only [List.length_cons, List.length_nil] at hi
    interval_cases i <;> norm_num
  · intro i hi
    simp only [List.length_cons, List.length_nil] at hi
    interval_cases i <;> norm_num [wOnes]

theorem blocked_chain_opt_zero :
    MipOptimal exampleChainBlocked wOnes 1 [0, 0, 0] [0, 0, 0] := by
  refine ⟨blocked_chain_feasible_zero, ?_⟩
  intro u y hf
  rw [blocked_chain_solution_zero u y hf]

theorem neg_chain_feasible (eps : ℚ) :
    MipFeasible exampleChain wNegOnes eps [0, 0, 0] [1, 1, 1] := by
  refine ⟨⟨⟨rfl, ?_⟩, ?_⟩, rfl, ?_, ?_, ?_⟩
  · intro i hi
    simp only [exampleChain, List.length_cons, List.length_nil] at hi
    interval_cases i <;> norm_num [exampleChain, lbAt, ubAt, defaultReaction]
  · intro row hrow
    simp only [exampleChain, List.mem_cons, List.not_mem_nil, or_false] at hrow
    rcases hrow with rfl | rfl <;> norm_num [dot]
  · intro i hi
    simp only [List.length_cons, List.length_nil] at hi
    interval_cases i <;> norm_num
  · intro i hi
    simp only [List.length_cons, List.length_nil] at hi
    interval_cases i <;> norm_num [wNegOnes]
  · intro i hi
    simp only [List.length_cons, List.length_nil] at hi
    interval_cases i <;> norm_num

theorem neg_chain_opt (eps : ℚ) :
    MipOptimal exampleChain wNegOnes eps [0, 0, 0] [1, 1, 1] := by
  refine ⟨neg_chain_feasible eps, ?_⟩
  intro u y hf
  obtain ⟨-, hylen, hbin, -, -⟩ := hf
  have h3 : y.length = 3 := by simpa [exampleChain] using hylen
  have := mipObjective_le_of_binary wNegOnes y hbin
  rw [h3] at this
  have hval : ((wNegOnes.take 3).map (fun a => |a|)).sum = 3 := by norm_num [wNegOnes]
  have hobj : mipObjective wNegOnes [1, 1, 1] = 3 := by norm_num [mipObjective, wNegOnes]
  rw [hobj]
  linarith [hval ▸ this]

theorem fixed_unique (v : List ℚ) (hf : FBAFeasible exampleFixed v) : v = [3, 3] := by
  obtain ⟨⟨hvlen, hbounds⟩, hsteady⟩ := hf
  have hv2 : v.length = 2 := by simpa [exampleFixed] using hvlen
  obtain ⟨p, q, rfl⟩ := List.length_eq_two.mp hv2
  have h0 := hbounds 0 (by norm_num [exampleFixed])
  norm_num [exampleFixed, lbAt, ubAt, defaultReaction] at h0
  have hp : p = 3 := le_antisymm h0.2 h0.1
  have hrow := hsteady [1, -1] (by simp [exampleFixed])
  norm_num [dot] at hrow
  have hq : q = 3 := by rw [hp] at hrow; linarith
  rw [hp, hq]

theorem fixed_feasible : FBAFeasible exampleFixed [3, 3] := by
  refine ⟨⟨rfl, ?_⟩, ?_⟩
  · intro i hi
    simp only [exampleFixed, List.length_cons, List.length_nil] at hi
    interval_cases i <;> norm_num [exampleFixed, lbAt, ubAt, defaultReaction]
  · intro row hrow
    simp only [exampleFixed, List.mem_cons, List.not_mem_nil, or_false] at hrow
    rcases hrow with rfl
    norm_num [dot]

theorem fixed_max_opt : MaxOptimal exampleFixed 0 [3, 3] := by
  refine ⟨fixed_feasible, ?_⟩
  intro u hu
  rw [fixed_unique u hu]

theorem fixed_min_opt : MinOptimal exampleFixed 0 [3, 3] := by
  refine ⟨fixed_feasible, ?_⟩
  intro u hu
  rw [fixed_unique u hu]

theorem branch_obj_le_two (v x : List ℚ)
    (hf : MipFeasible exampleBranch wOnes 1 v x) : mipObjective wOnes x ≤ 2 := by
  obtain ⟨⟨⟨hvlen, hbounds⟩, hsteady⟩, hxlen, hbin, hpos, -⟩ := hf
  have hv3 : v.length = 3 := by simpa [exampleBranch] using hvlen
  obtain ⟨p, q, r0, rfl⟩ := List.length_eq_three.mp hv3
  have hx3 : x.length = 3 := by simpa [exampleBranch] using hxlen
  obtain ⟨a, b, c, rfl⟩ := List.length_eq_three.mp hx3
  have hb0 := hbounds 0 (by norm_num [exampleBranch])
  have hb1 := hbounds 1 (by norm_num [exampleBranch])
  have hb2 := hbounds 2 (by norm_num [exampleBranch])
  norm_num [exampleBranch, lbAt, ubAt, defaultReaction] at hb0 hb1 hb2
  have hrow := hsteady [1, -1, -1] (by simp [exampleBranch])
  norm_num [dot] at hrow
  have ha := (by simpa using hbin 0 (by simp) : a = 0 ∨ a = 1)
  have hbb := (by simpa using hbin 1 (by simp) : b = 0 ∨ b = 1)
  have hc := (by simpa using hbin 2 (by simp) : c = 0 ∨ c = 1)
  have hnot : ¬ (b = 1 ∧ c = 1) := by
    rintro ⟨rfl, rfl⟩
    have h1 := hpos 1 (by simp) (by norm_num [wOnes]) (by simp)
    have h2 := hpos 2 (by simp) (by norm_num [wOnes]) (by simp)
    simp only [List.getD_cons_succ, List.getD_cons_zero] at h1 h2
    rw [abs_of_nonneg hb1.1] at h1
    rw [abs_of_nonneg hb2.1] at h2
    linarith [hb0.2]
  have hobj : mipObjective wOnes [a, b, c] = a + b + c := by
    norm_num [mipObjective, wOnes]
    ring
  rw [hobj]
  rcases hbb with rfl | rfl
  · rcases ha with rfl | rfl <;> rcases hc with rfl | rfl <;> norm_num
  · rcases hc with rfl | rfl
    · rcases ha with rfl | rfl <;> norm_num
    · exact absurd ⟨rfl, rfl⟩ hnot

theorem branch_feasible_110 : MipFeasible exampleBranch wOnes 1 [1, 1, 0] [1, 1, 0] := by
  refine ⟨⟨⟨rfl, ?_⟩, ?_⟩, rfl, ?_, ?_, ?_⟩
  · intro i hi
    simp only [exampleBranch, List.length_cons, List.length_nil] at hi
    interval_cases i <;> norm_num [exampleBranch, lbAt, ubAt, defaultReaction]
  · intro row hrow
    simp only [exampleBranch, List.mem_cons, List.not_mem_nil, or_false] at hrow
    rcases hrow with rfl
    norm_num [dot]
  · intro i hi
    simp only [List.length_cons, List.length_nil] at hi
    interval_cases i <;> norm_num
  · intro i hi
    simp only [List.length_cons, List.length_nil] at hi
    interval_cases i <;> norm_num
  · intro i hi
    simp only [List.length_cons, List.length_nil] at hi
    interval_cases i <;> norm_num [wOnes]

theorem branch_feasible_101 : MipFeasible exampleBranch wOnes 1 [1, 0, 1] [1, 0, 1] := by
  refine ⟨⟨⟨rfl, ?_⟩, ?_⟩, rfl, ?_, ?_, ?_⟩
  · intro i hi
    simp only [exampleBranch, List.length_cons, List.length_nil] at hi
    interval_cases i <;> norm_num [exampleBranch, lbAt, ubAt, defaultReaction]
  · intro row hrow
    simp only [exampleBranch, List.mem_cons, List.not_mem_nil, or_false] at hrow
    rcases hrow with rfl
    norm_num [dot]
  · intro i hi
    simp only [List.length_cons, List.length_nil] at hi
    interval_cases i <;> norm_num
  · intro i hi
    simp only [List.length_cons, List.length_nil] at hi
    interval_cases i <;> norm_num
  · intro i hi
    simp only [List.length_cons, List.length_nil] at hi
    interval_cases i <;> norm_num [wOnes]

theorem branch_opt_110 : MipOptimal exampleBranch wOnes 1 [1, 1, 0] [1, 1, 0] := by
  refine ⟨branch_feasible_110, ?_⟩
  intro u y hf
  have := branch_obj_le_two u y hf
  have hobj : mipObjective wOnes [1, 1, 0] = 2 := by norm_num [mipObjective, wOnes]
  rw [hobj]
  exact this

theorem branch_excl_opt_101 :
    ExcludeOptimal exampleBranch wOnes 1 [1, 1, 0] [1, 0, 1] [1, 0, 1] := by
  refine ⟨⟨branch_feasible_101, by norm_num⟩, ?_⟩
  intro u y hf
  have := branch_obj_le_two u y hf.1
  have hobj : mipObjective wOnes [1, 0, 1] = 2 := by norm_num [mipObjective, wOnes]
  rw [hobj]
  exact this

/-- At an optimum of a subset-selection problem with strictly negative
weights, every reaction without flux has its indicator set to one: otherwise
raising that indicator would stay feasible and strictly improve the
objective. -/
theorem opt_neg_indicator_eq_one (N : Network) (w : List ℚ) (eps : ℚ) (v x : List ℚ)
    (h : MipOptimal N w eps v x)
    (hwlen : w.length = N.reactions.length)
    (hneg : ∀ i, i < N.reactions.length → w.getD i 0 < 0)
    (i : Nat) (hi : i < N.reactions.length) (hv : v.getD i 0 = 0) :
    x.getD i 0 = 1 := by
  obtain ⟨⟨hfba, hxlen, hbin, hpos, hnegc⟩, hopt⟩ := h
  have hix : i < x.length := by rw [hxlen]; exact hi
  rcases hbin i hix with h0 | h1
  · exfalso
    have hfeas2 : MipFeasible N w eps v (x.set i 1) := by
      refine ⟨hfba, ?_, ?_, ?_, ?_⟩
      · rw [List.length_set]; exact hxlen
      · intro j hj
        rw [List.length_set] at hj
        by_cases hji : j = i
        · subst hji
          right
          exact getD_set_self x j 1 0 hj
        · rw [getD_set_ne x i j 1 0 hji]
          exact hbin j hj
      · intro j hj hwj hxj
        rw [List.length_set] at hj
        by_cases hji : j = i
        · subst hji
          exact absurd hwj (not_le.mpr (hneg j (by rw [← hxlen]; exact hj)))
        · rw [getD_set_ne x i j 1 0 hji] at hxj
          exact hpos j hj hwj hxj
      · intro j hj hwj hxj
        rw [List.length_set] at hj
        by_cases hji : j = i
        · subst hji
          exact hv
        · rw [getD_set_ne x i j 1 0 hji] at hxj
          exact hnegc j hj hwj hxj
    have hle := hopt v (x.set i 1) hfeas2
    have hset := mipObjective_set w x i 1 (by rw [hwlen]; exact hi) hix
    rw [h0] at hset
    have habs : 0 < |w.getD i 0| := abs_pos.mpr (ne_of_lt (hneg i hi))
    rw [hset] at hle
    linarith
  · exact h1

/-- Every reference of the copy points past the end of the original store. -/
theorem mem_copy_ge (st : VarStore) (m : VarRefs) (s : Nat)
    (hs : s ∈ allRefs (copyModel st m).2) : st.cells.length ≤ s := by
  simp only [allRefs, copyModel, List.mem_append, List.mem_map, List.mem_range] at hs
  rcases hs with ⟨j, -, rfl⟩ | ⟨j, -, rfl⟩ <;> omega

/-- Writing a cell no reference of the list points to does not change the
values read through the list. -/
theorem readCells_write_ne (st : VarStore) (r2 : Nat) (q : ℚ) (rs : List Nat)
    (h : ∀ r ∈ rs, r ≠ r2) : readCells (writeCell st r2 q) rs = readCells st rs := by
  induction rs with
  | nil => rfl
  | cons a t ih =>
    have ha : a ≠ r2 := h a (by simp)
    have ht : ∀ r ∈ t, r ≠ r2 := fun r hr => h r (by simp [hr])
    show (st.cells.set r2 q).getD a 0 :: readCells (writeCell st r2 q) t =
      st.cells.getD a 0 :: readCells st t
    rw [getD_set_ne st.cells r2 a q 0 ha, ih ht]

/-- The chain model with the middle reaction pinned admits the all-active
unit-flux solution. -/
theorem chainModelKeep_feasible : ModelFeasible chainModelKeep [1, 1, 1] [1, 1, 1] := by
  refine ⟨chain_feasible_ones.1.1, fun _ => chain_feasible_ones.1.2, ?_⟩
  show MipIndicators exampleChain wOnes (1 / 100) [1, 1, 1] [1, 1, 1] ∧
      (∀ r ∈ [1], List.getD [(1 : ℚ), 1, 1] r 0 = 1) ∧
      (∀ pat ∈ ([] : List (List ℚ)), [(1 : ℚ), 1, 1] ≠ pat)
  refine ⟨⟨rfl, chain_feasible_ones.2.2.1, ?_, chain_feasible_ones.2.2.2.2⟩, ?_, ?_⟩
  · intro i hi hwi hxi
    have := chain_feasible_ones.2.2.2.1 i hi hwi hxi
    linarith
  · intro r hr
    simp only [List.mem_singleton] at hr
    subst hr
    rfl
  · intro pat hpat
    exact absurd hpat (List.not_mem_nil pat)

/-- The chain model with weight `-1` everywhere and the middle reaction
pinned admits the all-zero flux assignment with every indicator on. -/
theorem chainModelNegKeep_feasible : ModelFeasible chainModelNegKeep [0, 0, 0] [1, 1, 1] := by
  refine ⟨(neg_chain_feasible (1 / 100)).1.1, fun _ => (neg_chain_feasible (1 / 100)).1.2, ?_⟩
  show MipIndicators exampleChain wNegOnes (1 / 100) [0, 0, 0] [1, 1, 1] ∧
      (∀ r ∈ [1], List.getD [(1 : ℚ), 1, 1] r 0 = 1) ∧
      (∀ pat ∈ ([] : List (List ℚ)), [(1 : ℚ), 1, 1] ≠ pat)
  refine ⟨(neg_chain_feasible (1 / 100)).2, ?_, ?_⟩
  · intro r hr
    simp only [List.mem_singleton] at hr
    subst hr
    rfl
  · intro pat hpat
    exact absurd hpat (List.not_mem_nil pat)

/-- In the chain model with weight `-1` everywhere and the middle reaction
pinned, every feasible assignment carries zero flux on the pinned reaction:
the pinned indicator is one, and a raised indicator of a negative-weight
reaction forces its flux to zero. -/
theorem chainModelNegKeep_flux_zero (v x : List ℚ)
    (hf : ModelFeasible chainModelNegKeep v x) : v.getD 1 0 = 0 := by
  obtain ⟨-, -, hind⟩ := hf
  have hind2 : MipIndicators exampleChain wNegOnes (1 / 100) v x ∧
      (∀ r2 ∈ [1], x.getD r2 0 = 1) ∧
      (∀ pat ∈ ([] : List (List ℚ)), x ≠ pat) := hind
  have hx1 : x.getD 1 0 = 1 := hind2.2.1 1 (by simp)
  have h1x : 1 < x.length := by
    rw [hind2.1.1]
    norm_num [exampleChain]
  exact hind2.1.2.2.2 1 h1x (by norm_num [wNegOnes]) hx1

/-- The chain model solved at flux two, with the middle reaction pinned to its
solved flux and `subset_selection(-1)` applied, admits the flux-two solution
with all indicators off. -/
theorem chain_pinned_feasible :
    ModelFeasible (subset_selection (set_fluxes_for chainModelFlux2 ridMid) wNegOnes)
      [2, 2, 2] [0, 0, 0] := by
  have hnet : (subset_selection (set_fluxes_for chainModelFlux2 ridMid) wNegOnes).network =
      setBoundsAt exampleChain 1 2 2 := rfl
  refine ⟨⟨rfl, ?_⟩, ?_, ?_⟩
  · intro i hi
    rw [hnet, setBoundsAt_num_reactions] at hi
    simp only [exampleChain, List.length_cons, List.length_nil] at hi
    rw [hnet]
    interval_cases i <;>
      norm_num [setBoundsAt, exampleChain, updateBoundsList, lbAt, ubAt, defaultReaction]
  · intro hss row hrow
    rw [hnet, setBoundsAt_stoich] at hrow
    simp only [exampleChain, List.mem_cons, List.not_mem_nil, or_false] at hrow
    rcases hrow with rfl | rfl <;> norm_num [dot]
  · show MipIndicators _ wNegOnes (1 / 100) [2, 2, 2] [0, 0, 0] ∧
      (∀ r ∈ ([] : List Nat), List.getD [(0 : ℚ), 0, 0] r 0 = 1) ∧
      (∀ pat ∈ ([] : List (List ℚ)), [(0 : ℚ), 0, 0] ≠ pat)
    refine ⟨⟨?_, ?_, ?_, ?_⟩, ?_, ?_⟩
    · show (3 : Nat) = (setBoundsAt exampleChain 1 2 2).reactions.length
      rw [setBoundsAt_num_reactions]
      rfl
    · intro i hi
      simp only [List.length_cons, List.length_nil] at hi
      interval_cases i <;> norm_num
    · intro i hi
      simp only [List.length_cons, List.length_nil] at hi
      interval_cases i <;> norm_num
    · intro i hi
      simp only [List.length_cons, List.length_nil] at hi
      interval_cases i <;> norm_num
    · intro r hr
      exact absurd hr (List.not_mem_nil r)
    · intro pat hpat
      exact absurd hpat (List.not_mem_nil pat)

/-! The claims. -/

/-- C1, counterexample: on a fixed network, maximising and minimising the
same reaction need not yield two different optimal flux values.  On
`exampleFixed` the uptake flux is pinned to `3` by its bounds, so every
max-solve and every min-solve of reaction `0` returns the same value. -/
theorem c1_counterexample :
    MaxOptimal exampleFixed 0 [3, 3] ∧ MinOptimal exampleFixed 0 [3, 3] ∧
    ∀ vmax vmin, MaxOptimal exampleFixed 0 vmax → MinOptimal exampleFixed 0 vmin →
      objAt 0 vmax = objAt 0 vmin :=
  ⟨fixed_max_opt, fixed_min_opt, fun vmax vmin hM hm => by
    rw [fixed_unique vmax hM.1, fixed_unique vmin hm.1]⟩

/-- C1, amended: for a fixed network and reaction, the minimised optimal flux
never exceeds the maximised one, and both optimal values are reproducible:
any two max-solves agree on the objective flux, and so do any two min-solves
(the recorded example values 40/3 and -20 of the r13m10 network are not
derivable here, as that data file is not among the sources). -/
theorem c1_max_ge_min (N : Network) (i : Nat) (v1 v2 v3 v4 : List ℚ)
    (h1 : MaxOptimal N i v1) (h2 : MaxOptimal N i v2)
    (h3 : MinOptimal N i v3) (h4 : MinOptimal N i v4) :
    objAt i v3 ≤ objAt i v1 ∧ objAt i v1 = objAt i v2 ∧ objAt i v3 = objAt i v4 :=
  ⟨h1.2 v3 h3.1, le_antisymm (h2.2 v1 h1.1) (h1.2 v2 h2.1),
   le_antisymm (h3.2 v4 h4.1) (h4.2 v3 h3.1)⟩

/-- Witness for the amended C1 on the fully determined network. -/
theorem c1_max_ge_min_witness :
    MaxOptimal exampleFixed 0 [3, 3] ∧ MinOptimal exampleFixed 0 [3, 3] ∧
    (objAt 0 [(3 : ℚ), 3] ≤ objAt 0 [(3 : ℚ), 3] ∧
     objAt 0 [(3 : ℚ), 3] = objAt 0 [(3 : ℚ), 3] ∧
     objAt 0 [(3 : ℚ), 3] = objAt 0 [(3 : ℚ), 3]) :=
  ⟨fixed_max_opt, fixed_min_opt,
   c1_max_ge_min exampleFixed 0 [3, 3] [3, 3] [3, 3] [3, 3]
     fixed_max_opt fixed_max_opt fixed_min_opt fixed_min_opt⟩

/-- C2, counterexample: blocking one reaction can reduce the count of active
reactions by more than one.  On the chain network every reaction is active at
the optimum, but with the middle reaction blocked every feasible assignment
has all indicators off, so the count drops from `3` to `0`, not to `2`. -/
theorem c2_counterexample :
    MipOptimal exampleChain wOnes 1 [1, 1, 1] [1, 1, 1] ∧
    activeCount [1, 1, 1] = num_reactions exampleChain ∧
    MipOptimal exampleChainBlocked wOnes 1 [0, 0, 0] [0, 0, 0] ∧
    (∀ u y, MipFeasible exampleChainBlocked wOnes 1 u y → activeCount y = 0) ∧
    activeCount ([0, 0, 0] : List ℚ) ≠ num_reactions exampleChain - 1 := by
  refine ⟨chain_opt_ones, ?_, blocked_chain_opt_zero, ?_, ?_⟩
  · norm_num [activeCount, List.countP, List.countP.go, num_reactions, exampleChain]
  · intro u y hf
    rw [blocked_chain_solution_zero u y hf]
    norm_num [activeCount, List.countP, List.countP.go]
  · norm_num [activeCount, List.countP, List.countP.go, num_reactions, exampleChain]

/-- C2, amended: if the unblocked subset-selection optimum reports every
reaction active, then after blocking a reaction with nonnegative weight (both
bounds set to zero) any optimum reports at least one reaction fewer active;
the reduction can be larger than one, as the counterexample and the
test-suite's own blocked `EX_j` case (8 of 13 active) show. -/
theorem c2_blocked_active_le (N : Network) (w : List ℚ) (eps : ℚ) (r : Nat)
    (v0 x0 v x : List ℚ)
    (_h0 : MipOptimal N w eps v0 x0)
    (hall : activeCount x0 = num_reactions N)
    (hb : MipOptimal (setBoundsAt N r 0 0) w eps v x)
    (hr : r < num_reactions N)
    (hwr : 0 ≤ w.getD r 0)
    (heps : 0 < eps) :
    activeCount x ≤ activeCount x0 - 1 := by
  obtain ⟨⟨⟨hvlen, hbounds⟩, -⟩, hxlen, hbin, hpos, -⟩ := hb.1
  have hnlen : (setBoundsAt N r 0 0).reactions.length = N.reactions.length :=
    setBoundsAt_num_reactions N r 0 0
  have hrb : r < (setBoundsAt N r 0 0).reactions.length := by rw [hnlen]; exact hr
  have hvb := hbounds r hrb
  rw [setBoundsAt_lbAt_self N r 0 0 hr, setBoundsAt_ubAt_self N r 0 0 hr] at hvb
  have hv0 : v.getD r 0 = 0 := le_antisymm hvb.2 hvb.1
  have hrx : r < x.length := by rw [hxlen, hnlen]; exact hr
  have hxr : x.getD r 0 = 0 := by
    rcases hbin r hrx with h | h
    · exact h
    · exfalso
      have := hpos r hrx hwr h
      rw [hv0, abs_zero] at this
      linarith
  have hc := activeCount_le_pred x r hrx (by rw [hxr]; norm_num)
  rw [hxlen, hnlen] at hc
  rw [hall]
  exact hc

/-- Witness for the amended C2 on the chain network with its middle reaction
blocked. -/
theorem c2_blocked_active_le_witness :
    MipOptimal exampleChain wOnes 1 [1, 1, 1] [1, 1, 1] ∧
    activeCount [1, 1, 1] = num_reactions exampleChain ∧
    MipOptimal (setBoundsAt exampleChain 1 0 0) wOnes 1 [0, 0, 0] [0, 0, 0] ∧
    1 < num_reactions exampleChain ∧
    0 ≤ wOnes.getD 1 0 ∧
    (0 : ℚ) < 1 ∧
    activeCount ([0, 0, 0] : List ℚ) ≤ activeCount [1, 1, 1] - 1 := by
  have hall : activeCount [1, 1, 1] = num_reactions exampleChain := by
    norm_num [activeCount, List.countP, List.countP.go, num_reactions, exampleChain]
  refine ⟨chain_opt_ones, hall, blocked_chain_opt_zero, by norm_num [num_reactions, exampleChain],
    by norm_num [wOnes], by norm_num, ?_⟩
  exact c2_blocked_active_le exampleChain wOnes 1 1 [1, 1, 1] [1, 1, 1] [0, 0, 0] [0, 0, 0]
    chain_opt_ones hall blocked_chain_opt_zero
    (by norm_num [num_reactions, exampleChain]) (by norm_num [wOnes]) (by norm_num)

/-- C4: `copy()` deep-copies the variables: the copy has the same number of
flux and indicator variables, its variable objects are all distinct from the
original's, and writing through the copy's variables leaves every value the
original sees unchanged. -/
theorem c4_copy_independent (st : VarStore) (m : VarRefs) (h : ValidRefs st m) :
    CopyOk st m := by
  refine ⟨by simp [copyModel], by simp [copyModel], ?_, ?_⟩
  · intro r hr s hs
    have hrn : r < st.cells.length := h r hr
    have hsn : st.cells.length ≤ s := mem_copy_ge st m s hs
    omega
  · intro s hs q0
    have hsn : st.cells.length ≤ s := mem_copy_ge st m s hs
    apply readCells_write_ne
    intro r hr
    have := h r hr
    omega

/-- Witness for C4 on a two-cell store. -/
theorem c4_copy_independent_witness :
    ValidRefs ⟨[1, 2]⟩ ⟨[0], [1]⟩ ∧ CopyOk ⟨[1, 2]⟩ ⟨[0], [1]⟩ :=
  ⟨by decide, c4_copy_independent ⟨[1, 2]⟩ ⟨[0], [1]⟩ (by decide)⟩

/-- C5, counterexample: re-solving after `exclude()` need not yield a
strictly different objective value.  On the branched network the two optimal
indicator patterns `[1,1,0]` and `[1,0,1]` have the same objective `2`, so
excluding the first and re-solving returns the same value. -/
theorem c5_counterexample :
    MipOptimal exampleBranch wOnes 1 [1, 1, 0] [1, 1, 0] ∧
    ExcludeOptimal exampleBranch wOnes 1 [1, 1, 0] [1, 0, 1] [1, 0, 1] ∧
    mipObjective wOnes [1, 0, 1] = mipObjective wOnes [1, 1, 0] :=
  ⟨branch_opt_110, branch_excl_opt_101, by norm_num [mipObjective, wOnes]⟩

/-- C5, amended: re-solving after `exclude()` yields an objective value less
than or equal to the first solve's objective value; equality is possible when
the optimum is attained by several indicator patterns (the recorded example
values 9.0 then 8.0 come from the r13m10 data file, which is not among the
sources). -/
theorem c5_exclude_not_higher (N : Network) (w : List ℚ) (eps : ℚ)
    (v1 x1 v2 x2 : List ℚ)
    (h1 : MipOptimal N w eps v1 x1)
    (h2 : ExcludeOptimal N w eps x1 v2 x2) :
    mipObjective w x2 ≤ mipObjective w x1 :=
  h1.2 v2 x2 h2.1.1

/-- Witness for the amended C5 on the branched network. -/
theorem c5_exclude_not_higher_witness :
    MipOptimal exampleBranch wOnes 1 [1, 1, 0] [1, 1, 0] ∧
    ExcludeOptimal exampleBranch wOnes 1 [1, 1, 0] [1, 0, 1] [1, 0, 1] ∧
    mipObjective wOnes [1, 0, 1] ≤ mipObjective wOnes [1, 1, 0] :=
  ⟨branch_opt_110, branch_excl_opt_101,
   c5_exclude_not_higher exampleBranch wOnes 1 [1, 1, 0] [1, 1, 0] [1, 0, 1] [1, 0, 1]
     branch_opt_110 branch_excl_opt_101⟩

/-- C7: on a model whose solve status is absent, both `get_fluxes` and
`get_values` fail with the not-solved error. -/
theorem c7_unsolved_access_fails (m : OptimizationModel) (rid : String)
    (h : m.status = none) :
    get_fluxes m rid = Except.error msgNotSolved ∧
    get_values m = Except.error msgNotSolved := by
  constructor
  · simp [get_fluxes, h]
  · simp [get_values, h]

/-- Witness for C7 on a freshly loaded model. -/
theorem c7_unsolved_access_fails_witness :
    (load exampleChain).status = none ∧
    get_fluxes (load exampleChain) ridIn = Except.error msgNotSolved ∧
    get_values (load exampleChain) = Except.error msgNotSolved :=
  ⟨rfl, c7_unsolved_access_fails (load exampleChain) ridIn rfl⟩

/-- C8: `select_subnetwork` fails with the not-solved error on an unsolved
model, and fails with the no-indicator error on a solved model without
indicator variables when the indicator mode is requested. -/
theorem c8_select_subnetwork_errors (m1 m2 : OptimizationModel) (s : SolveStatus)
    (mode : ExtractionMode) (c : Comparator) (value : ℚ)
    (h1 : m1.status = none) (h2 : m2.status = some s) (h3 : m2.weights = none) :
    select_subnetwork m1 mode c value = Except.error msgNotSolved ∧
    select_subnetwork m2 ExtractionMode.INDICATOR_VALUE c value =
      Except.error msgNoIndicators := by
  constructor
  · simp [select_subnetwork, h1]
  · simp [select_subnetwork, h2, h3]

/-- Witness for C8 on a fresh model and on a solved model without
indicators. -/
theorem c8_select_subnetwork_errors_witness :
    (load exampleChain).status = none ∧
    (solve (load exampleChain) statusFlux2).status = some statusFlux2 ∧
    (solve (load exampleChain) statusFlux2).weights = none ∧
    select_subnetwork (load exampleChain) ExtractionMode.ABSOLUTE_FLUX_VALUE
      Comparator.LESS 1 = Except.error msgNotSolved ∧
    select_subnetwork (solve (load exampleChain) statusFlux2)
      ExtractionMode.INDICATOR_VALUE Comparator.LESS 1 = Except.error msgNoIndicators := by
  refine ⟨rfl, rfl, rfl, ?_⟩
  exact c8_select_subnetwork_errors (load exampleChain)
    (solve (load exampleChain) statusFlux2) statusFlux2
    ExtractionMode.ABSOLUTE_FLUX_VALUE Comparator.LESS 1 rfl rfl rfl

/-- C9: a `set_flux_bounds` call that resolves its reaction id after a solve
invalidates the cached status, and both value accessors on the resulting
model then fail with the not-solved error until the model is solved again (an
unresolvable id does not return a model at all: it fails with the not-found
error). -/
theorem c9_set_flux_bounds_invalidates (m : OptimizationModel) (s : SolveStatus)
    (rid rid2 : String) (lo hi : ℚ) (m2 : OptimizationModel)
    (h : set_flux_bounds (solve m s) rid lo hi = Except.ok m2) :
    m2.status = none ∧
    get_fluxes m2 rid2 = Except.error msgNotSolved ∧
    get_values m2 = Except.error msgNotSolved := by
  have hst : m2.status = none := by
    cases hfind : findReactionIdx (solve m s).network rid with
    | none => simp [set_flux_bounds, hfind] at h
    | some i =>
      simp only [set_flux_bounds, hfind, Except.ok.injEq] at h
      rw [← h]
  exact ⟨hst, by simp [get_fluxes, hst], by simp [get_values, hst]⟩

/-- Witness for C9: blocking the middle chain reaction after a solve. -/
theorem c9_set_flux_bounds_invalidates_witness :
    set_flux_bounds (solve (load exampleChain) statusFlux2) ridMid 0 0 =
      Except.ok chainModelReBounded ∧
    chainModelReBounded.status = none ∧
    get_fluxes chainModelReBounded ridIn = Except.error msgNotSolved ∧
    get_values chainModelReBounded = Except.error msgNotSolved := by
  have h : set_flux_bounds (solve (load exampleChain) statusFlux2) ridMid 0 0 =
      Except.ok chainModelReBounded := rfl
  exact ⟨h, c9_set_flux_bounds_invalidates (load exampleChain) statusFlux2 ridMid ridIn
    0 0 chainModelReBounded h⟩

/-- C3: on a solved subset-selection model with strictly negative weights
(the expansion of `subset_selection(-1)`) whose nonzero fluxes all reach the
extraction threshold, selecting by indicator value at most one half and
selecting by absolute flux at least `1e-8` return networks with the same
number of reactions. -/
theorem c3_indicator_flux_counts_agree (m : OptimizationModel) (w v x : List ℚ) (q0 : ℚ)
    (hw : m.weights = some w)
    (hs : m.status = some ⟨q0, v, x⟩)
    (hopt : MipOptimal m.network w m.eps v x)
    (hwlen : w.length = m.network.reactions.length)
    (hneg : ∀ i, i < m.network.reactions.length → w.getD i 0 < 0)
    (htiny : ∀ i, i < m.network.reactions.length →
      v.getD i 0 = 0 ∨ (1 : ℚ) / 100000000 ≤ |v.getD i 0|) :
    ∃ N1 N2,
      select_subnetwork m ExtractionMode.INDICATOR_VALUE Comparator.LESS_OR_EQUAL (1 / 2) =
        Except.ok N1 ∧
      select_subnetwork m ExtractionMode.ABSOLUTE_FLUX_VALUE Comparator.GREATER_OR_EQUAL
        (1 / 100000000) = Except.ok N2 ∧
      N1.reactions.length = N2.reactions.length := by
  have hxlen := hopt.1.2.1
  have hbin := hopt.1.2.2.1
  have hnegc := hopt.1.2.2.2.2
  have hsel1 : select_subnetwork m ExtractionMode.INDICATOR_VALUE Comparator.LESS_OR_EQUAL
      (1 / 2) = Except.ok (filterNetwork m.network
        (fun j => applyComparator Comparator.LESS_OR_EQUAL (x.getD j 0) (1 / 2))) := by
    simp [select_subnetwork, hs, hw]
  have hsel2 : select_subnetwork m ExtractionMode.ABSOLUTE_FLUX_VALUE
      Comparator.GREATER_OR_EQUAL (1 / 100000000) =
      Except.ok (filterNetwork m.network
        (fun j => applyComparator Comparator.GREATER_OR_EQUAL (|v.getD j 0|)
          (1 / 100000000))) := by
    simp [select_subnetwork, hs]
  refine ⟨_, _, hsel1, hsel2, ?_⟩
  show (keepIdx (fun j => applyComparator Comparator.LESS_OR_EQUAL (x.getD j 0) (1 / 2))
      0 m.network.reactions).length =
    (keepIdx (fun j => applyComparator Comparator.GREATER_OR_EQUAL (|v.getD j 0|)
      (1 / 100000000)) 0 m.network.reactions).length
  apply keepIdx_length_congr
  intro j hj
  simp only [Nat.zero_add]
  have hjx : j < x.length := by rw [hxlen]; exact hj
  rcases hbin j hjx with h0 | h1
  · have hvne : v.getD j 0 ≠ 0 := by
      intro hv0
      have := opt_neg_indicator_eq_one m.network w m.eps v x hopt hwlen hneg j hj hv0
      rw [h0] at this
      norm_num at this
    have hbig : (1 : ℚ) / 100000000 ≤ |v.getD j 0| := by
      rcases htiny j hj with hz | hb
      · exact absurd hz hvne
      · exact hb
    simp only [applyComparator]
    rw [decide_eq_decide]
    constructor
    · intro _
      exact hbig
    · intro _
      rw [h0]
      norm_num
  · have hv0 : v.getD j 0 = 0 := hnegc j hjx (hneg j hj) h1
    simp only [applyComparator]
    rw [decide_eq_decide]
    constructor
    · intro hle
      rw [h1] at hle
      norm_num at hle
    · intro hge
      rw [hv0, abs_zero] at hge
      norm_num at hge

/-- Witness for C3 on the chain model solved with `subset_selection(-1)`. -/
theorem c3_indicator_flux_counts_agree_witness :
    chainModelOff.weights = some wNegOnes ∧
    chainModelOff.status = some ⟨3, [0, 0, 0], [1, 1, 1]⟩ ∧
    MipOptimal chainModelOff.network wNegOnes chainModelOff.eps [0, 0, 0] [1, 1, 1] ∧
    wNegOnes.length = chainModelOff.network.reactions.length ∧
    (∀ i, i < chainModelOff.network.reactions.length → wNegOnes.getD i 0 < 0) ∧
    (∀ i, i < chainModelOff.network.reactions.length →
      List.getD [(0 : ℚ), 0, 0] i 0 = 0 ∨
        (1 : ℚ) / 100000000 ≤ |List.getD [(0 : ℚ), 0, 0] i 0|) ∧
    (∃ N1 N2,
      select_subnetwork chainModelOff ExtractionMode.INDICATOR_VALUE
        Comparator.LESS_OR_EQUAL (1 / 2) = Except.ok N1 ∧
      select_subnetwork chainModelOff ExtractionMode.ABSOLUTE_FLUX_VALUE
        Comparator.GREATER_OR_EQUAL (1 / 100000000) = Except.ok N2 ∧
      N1.reactions.length = N2.reactions.length) := by
  have hneg : ∀ i, i < chainModelOff.network.reactions.length → wNegOnes.getD i 0 < 0 := by
    intro i hi
    have hi3 : i < 3 := hi
    interval_cases i <;> norm_num [wNegOnes]
  have htiny : ∀ i, i < chainModelOff.network.reactions.length →
      List.getD [(0 : ℚ), 0, 0] i 0 = 0 ∨
        (1 : ℚ) / 100000000 ≤ |List.getD [(0 : ℚ), 0, 0] i 0| := by
    intro i hi
    left
    have hi3 : i < 3 := hi
    interval_cases i <;> norm_num
  exact ⟨rfl, rfl, neg_chain_opt (1 / 100), rfl, hneg, htiny,
    c3_indicator_flux_counts_agree chainModelOff wNegOnes [0, 0, 0] [1, 1, 1] 3
      rfl rfl (neg_chain_opt (1 / 100)) rfl hneg htiny⟩

/-- C6, counterexample: a reaction pinned by `keep` need not carry flux above
`1e-8`.  On the chain model with weight `-1` on every reaction and the middle
reaction pinned, every feasible assignment -- so every possible solver output
-- has zero flux on the pinned reaction: its pinned indicator is one, and a
raised indicator of a negative-weight reaction means the reaction carries no
flux.  The all-zero assignment with every indicator on exhibits such a
solution. -/
theorem c6_counterexample :
    chainModelNegKeep.weights = some wNegOnes ∧
    1 ∈ chainModelNegKeep.keepSet ∧
    wNegOnes.getD 1 0 < 0 ∧
    ModelFeasible chainModelNegKeep [0, 0, 0] [1, 1, 1] ∧
    (∀ v x, ModelFeasible chainModelNegKeep v x → v.getD 1 0 = 0) ∧
    ¬ (1 : ℚ) / 100000000 < |List.getD [(0 : ℚ), 0, 0] 1 0| := by
  refine ⟨rfl, ?_, by norm_num [wNegOnes], chainModelNegKeep_feasible,
    chainModelNegKeep_flux_zero, ?_⟩
  · show 1 ∈ [1]
    simp
  · norm_num

/-- C6, amended: a reaction pinned by `keep` after `subset_selection`,
carrying a nonnegative weight (the tested scenario), has solved flux
magnitude above `1e-8` whenever the model's activity threshold exceeds
`1e-8`, in every feasible (hence in every solved) assignment; a pinned
reaction with negative weight is instead forced to zero flux, as the
counterexample shows. -/
theorem c6_keep_flux_above_eps (m : OptimizationModel) (w v x : List ℚ) (r : Nat)
    (hw : m.weights = some w)
    (hk : r ∈ m.keepSet)
    (hf : ModelFeasible m v x)
    (hr : r < x.length)
    (hwr : 0 ≤ w.getD r 0)
    (heps : (1 : ℚ) / 100000000 < m.eps) :
    (1 : ℚ) / 100000000 < |v.getD r 0| := by
  obtain ⟨-, -, hind⟩ := hf
  rw [hw] at hind
  have hind2 : MipIndicators m.network w m.eps v x ∧
      (∀ r2 ∈ m.keepSet, x.getD r2 0 = 1) ∧
      (∀ pat ∈ m.excludedPatterns, x ≠ pat) := hind
  have hx1 : x.getD r 0 = 1 := hind2.2.1 r hk
  have hge := hind2.1.2.2.1 r hr hwr hx1
  linarith

/-- Witness for C6 on the chain model with the middle reaction pinned. -/
theorem c6_keep_flux_above_eps_witness :
    chainModelKeep.weights = some wOnes ∧
    1 ∈ chainModelKeep.keepSet ∧
    ModelFeasible chainModelKeep [1, 1, 1] [1, 1, 1] ∧
    1 < [(1 : ℚ), 1, 1].length ∧
    0 ≤ wOnes.getD 1 0 ∧
    (1 : ℚ) / 100000000 < chainModelKeep.eps ∧
    (1 : ℚ) / 100000000 < |List.getD [(1 : ℚ), 1, 1] 1 0| := by
  have hk : 1 ∈ chainModelKeep.keepSet := by
    show 1 ∈ [1]
    simp
  have heps : (1 : ℚ) / 100000000 < chainModelKeep.eps := by
    show (1 : ℚ) / 100000000 < 1 / 100
    norm_num
  refine ⟨rfl, hk, chainModelKeep_feasible, by norm_num, by norm_num [wOnes], heps, ?_⟩
  exact c6_keep_flux_above_eps chainModelKeep wOnes [1, 1, 1] [1, 1, 1] 1
    rfl hk chainModelKeep_feasible (by norm_num) (by norm_num [wOnes]) heps

/-- C10: after a solve, `set_fluxes_for` pins the flux of the given reaction
to its solved value: any assignment feasible for the model obtained by then
applying `subset_selection` has exactly that flux on the pinned reaction. -/
theorem c10_set_fluxes_for_pins (m : OptimizationModel) (s : SolveStatus) (rid : String)
    (i : Nat) (w v x : List ℚ)
    (hs : m.status = some s)
    (hi : findReactionIdx m.network rid = some i)
    (hf : ModelFeasible (subset_selection (set_fluxes_for m rid) w) v x) :
    v.getD i 0 = s.fluxes.getD i 0 := by
  have hir : i < m.network.reactions.length := findIdxAux_lt rid m.network.reactions i hi
  have hset : set_fluxes_for m rid =
      { m with network := setBoundsAt m.network i (s.fluxes.getD i 0) (s.fluxes.getD i 0) } := by
    simp [set_fluxes_for, hs, hi]
  have hnet : (subset_selection (set_fluxes_for m rid) w).network =
      setBoundsAt m.network i (s.fluxes.getD i 0) (s.fluxes.getD i 0) := by
    rw [hset]
    rfl
  obtain ⟨⟨hvlen, hbounds⟩, -, -⟩ := hf
  rw [hnet] at hbounds
  have hlen2 : i <
      (setBoundsAt m.network i (s.fluxes.getD i 0) (s.fluxes.getD i 0)).reactions.length := by
    rw [setBoundsAt_num_reactions]
    exact hir
  have hb := hbounds i hlen2
  rw [setBoundsAt_lbAt_self m.network i _ _ hir, setBoundsAt_ubAt_self m.network i _ _ hir] at hb
  exact le_antisymm hb.2 hb.1

/-- Witness for C10 on the chain model solved at flux two with the middle
reaction pinned. -/
theorem c10_set_fluxes_for_pins_witness :
    chainModelFlux2.status = some statusFlux2 ∧
    findReactionIdx chainModelFlux2.network ridMid = some 1 ∧
    ModelFeasible (subset_selection (set_fluxes_for chainModelFlux2 ridMid) wNegOnes)
      [2, 2, 2] [0, 0, 0] ∧
    List.getD [(2 : ℚ), 2, 2] 1 0 = statusFlux2.fluxes.getD 1 0 := by
  have hfind : findReactionIdx chainModelFlux2.network ridMid = some 1 := rfl
  refine ⟨rfl, hfind, chain_pinned_feasible, ?_⟩
  exact c10_set_fluxes_for_pins chainModelFlux2 statusFlux2 ridMid 1 wNegOnes
    [2, 2, 2] [0, 0, 0] rfl hfind chain_pinned_feasible

end Miom
